import Mathlib

/-!
Verification of the PM2.5 forecasting pipeline (aqi-pm25-prediction).

The development shallowly embeds the core of the repository:
timestamp normalization (`02_build_features_pm25_next72h.py`,
`_parse_mixed_utc_timestamps`), the time-series feature builder
(`02_build_features_pm25_next1h.py` / `02_build_features_pm25_next72h.py`),
the PM2.5 → US-AQI converter (`05_predict_pm25_for_time_next72h.py` /
`06_generate_and_store_next72h_forecast.py`, `pm25_to_aqi_us`), the
horizon aligner (`05_predict_pm25_for_time_next72h.py`, `main`), and the
forecast materializer (`06_generate_and_store_next72h_forecast.py`, `main`).

Machine floats of the Python source are embedded as exact rationals (ℚ);
`datetime` instants are embedded as integers (microseconds since an epoch
where microsecond precision matters, whole hours elsewhere — Python
`datetime` has microsecond resolution).
-/

/- Batteries marks the arithmetic on `Rat` `@[irreducible]`, which blocks
`decide` on concrete rational computations; restore the definitional
behaviour so concrete pipeline values can be evaluated in proofs. -/
set_option allowUnsafeReducibility true in
attribute [semireducible] Rat.add Rat.mul Rat.sub Rat.inv Rat.div Rat.ofScientific

/-- Python's `round` to the nearest integer uses banker's rounding
(round half to even).  `int(round(x))` on an integral float is that
integer, so `int(round(aqi))` in `pm25_to_aqi_us` is exactly this. -/
def bankersRound (q : ℚ) : ℤ :=
  let f : ℤ := q.floor
  let r : ℚ := q - (f : ℚ)
  if r < 1/2 then f
  else if 1/2 < r then f + 1
  else if f % 2 = 0 then f else f + 1

/-- The fixed US-EPA PM2.5 breakpoint table of `pm25_to_aqi_us`
(both copies in `05_…` and `06_…` contain the identical literal list):
entries are `(c_low, c_high, i_low, i_high, label)`. -/
def pm25Breakpoints : List (ℚ × ℚ × ℤ × ℤ × String) :=
  [ (0.0,   12.0,  0,   50,  "Good"),
    (12.1,  35.4,  51,  100, "Moderate"),
    (35.5,  55.4,  101, 150, "Unhealthy for Sensitive Groups"),
    (55.5,  150.4, 151, 200, "Unhealthy"),
    (150.5, 250.4, 201, 300, "Very Unhealthy"),
    (250.5, 350.4, 301, 400, "Hazardous"),
    (350.5, 500.4, 401, 500, "Hazardous") ]

/-- The `for c_low, c_high, … in breakpoints` loop of `pm25_to_aqi_us`:
the first band with `c_low <= pm25 <= c_high` wins and yields
`int(round(((i_high - i_low) / (c_high - c_low)) * (pm25 - c_low) + i_low))`
together with its label. -/
def findBand : List (ℚ × ℚ × ℤ × ℤ × String) → ℚ → Option (ℤ × String)
  | [], _ => none
  | (cLow, cHigh, iLow, iHigh, label) :: rest, c =>
    if cLow ≤ c ∧ c ≤ cHigh then
      some (bankersRound ((((iHigh : ℚ) - (iLow : ℚ)) / (cHigh - cLow)) * (c - cLow) + (iLow : ℚ)), label)
    else findBand rest c

/-- The two clamping statements of `pm25_to_aqi_us`
(`if pm25 < 0: pm25 = 0.0` then `if pm25 > 500.4: pm25 = 500.4`). -/
def pm25Clamped (pm25 : ℚ) : ℚ :=
  let c1 : ℚ := if pm25 < 0 then 0 else pm25
  if c1 > 500.4 then 500.4 else c1

/-- `pm25_to_aqi_us` (identical in `05_predict_pm25_for_time_next72h.py`
and `06_generate_and_store_next72h_forecast.py`): clamp the input to
`[0, 500.4]`, then return the first matching band's rounded linear
interpolation and label, or `(None, "Unknown")` when no band matches. -/
def pm25_to_aqi_us (pm25 : ℚ) : Option ℤ × String :=
  match findBand pm25Breakpoints (pm25Clamped pm25) with
  | some (aqi, label) => (some aqi, label)
  | none => (none, "Unknown")

/-- `HORIZON_HOURS = 72` of the 72-hour pipeline scripts. -/
def HORIZON_HOURS : ℕ := 72

/-- Microseconds per hour.  Instants that need sub-hour precision are
embedded as integer microseconds since an epoch (Python `datetime`
resolution); hour-aligned instants elsewhere are embedded as integer
hours since the same epoch. -/
def usPerHour : ℤ := 3600000000

/-- `delta_hours = (user_time - base_time).total_seconds() / 3600.0` from
`05_predict_pm25_for_time_next72h.py` (line 118), on instants in
microseconds, as an exact rational. -/
def deltaHours (query base : ℤ) : ℚ := ((query - base : ℤ) : ℚ) / (usPerHour : ℚ)

/-- `h = int(math.floor(delta_hours + 1e-9))` from the same script
(line 119, comment: avoid tiny float issues). -/
def epsFloorHours (query base : ℤ) : ℤ := (deltaHours query base + 1/1000000000).floor

/-- The horizon-range gate of `05_predict_pm25_for_time_next72h.py`
(lines 121-125): reject unless `1 <= h <= HORIZON_HOURS`; the script
raises `RuntimeError` there, embedded as `none`. -/
def alignHorizon (query base : ℤ) : Option ℤ :=
  let h := epsFloorHours query base
  if h < 1 ∨ h > (HORIZON_HOURS : ℤ) then none else some h

/-- `pred_pm25 = float(yhat[h - 1])` (line 156): element `h - 1` of the
H-length prediction vector for the accepted horizon `h`. -/
def selectHorizonValue (yhat : List ℚ) (query base : ℤ) : Option ℚ :=
  (alignHorizon query base).bind (fun h => yhat.get? (h - 1).toNat)

/-- One raw store document as the feature builders see it: the result of
parsing its `timestamp` field (`none` models `NaT` from
`errors="coerce"`), paired with its `pollutants.pm2_5` value after
`pd.to_numeric(errors="coerce")` (`none` models `NaN`).  The parsed
instant is in whole hours since the epoch (raw timestamps are
hour-aligned strings such as `2026-01-25T15:00:00Z`). -/
structure RawRecord where
  parsedInstant : Option ℤ
  pm2_5 : Option ℚ
  deriving DecidableEq

/-- One element of the ordered reading series after
`dropna(subset=["timestamp"])`. -/
structure Reading where
  instant : ℤ
  pm2_5 : Option ℚ
  deriving DecidableEq

/-- `df.dropna(subset=["timestamp"])`: keep the records whose timestamp
parsed. -/
def readingsOf (raws : List RawRecord) : List Reading :=
  raws.filterMap (fun r => r.parsedInstant.map (fun t => Reading.mk t r.pm2_5))

/-- Insert a reading into an instant-sorted list (helper for
`sortByInstant`). -/
def insertSorted (r : Reading) : List Reading → List Reading
  | [] => [r]
  | x :: xs => if r.instant < x.instant then r :: x :: xs else x :: insertSorted r xs

/-- `df.sort_values("timestamp")` from `02_build_features_pm25_next72h.py`
(line 68), as an insertion sort on the parsed instants. -/
def sortByInstant (rs : List Reading) : List Reading :=
  rs.foldr insertSorted []

/-- `series.shift(k)` read at row `i`: the pm2_5 value `k` rows earlier,
`NaN` (none) for the first `k` rows.  This is positional, not
time-based — exactly pandas `shift`. -/
def shiftVal (pms : List (Option ℚ)) (i k : ℕ) : Option ℚ :=
  if k ≤ i then (pms.get? (i - k)).join else none

/-- `series.shift(-h)` read at row `i`: the pm2_5 value `h` rows later,
`NaN` (none) past the end of the frame. -/
def leadVal (pms : List (Option ℚ)) (i h : ℕ) : Option ℚ :=
  (pms.get? (i + h)).join

/-- The trailing window of `w` slots ending at row `i`, as pandas
`rolling(w, min_periods=w)` sees it: defined only when the frame has at
least `w` rows up to `i` and every slot holds a non-NaN value (with
`min_periods = w`, any NaN or shorter window yields NaN).  For an
integer window pandas defaults `min_periods` to the window size, so the
bare `rolling(3)` / `rolling(24)` calls of
`02_build_features_pm25_next1h.py` are this same function. -/
def windowVals (pms : List (Option ℚ)) (i w : ℕ) : Option (List ℚ) :=
  if w ≤ i + 1 then
    if ((List.range w).map (fun j => (pms.get? (i + 1 - w + j)).join)).all Option.isSome
    then some ((List.range w).map (fun j => (pms.get? (i + 1 - w + j)).join)).reduceOption
    else none
  else none

/-- `rolling(w, min_periods=w).mean()` read at row `i`. -/
def rollMean (pms : List (Option ℚ)) (i w : ℕ) : Option ℚ :=
  (windowVals pms i w).map (fun l => l.sum / (w : ℚ))

/-- The sample variance (`ddof = 1`, the pandas default) of a full
window of `w` values. -/
def sampleVar (l : List ℚ) (w : ℕ) : ℚ :=
  let m := l.sum / (w : ℚ)
  (l.map (fun x => (x - m) * (x - m))).sum / ((w : ℚ) - 1)

/-- `rolling(w, min_periods=w).std()` read at row `i`, tracked by its
square: pandas `std` is the square root of this sample variance, so the
stored std is non-NaN exactly when this is non-none and is determined
by it (the square root itself is irrational in general and is not
representable in ℚ). -/
def rollVarOfStd (pms : List (Option ℚ)) (i w : ℕ) : Option ℚ :=
  (windowVals pms i w).map (fun l => sampleVar l w)

/-- Day of week with Monday = 0 (pandas `dt.dayofweek`) for an instant
in hours since the Unix epoch (1970-01-01 was a Thursday). -/
def dayOfWeekOf (instant : ℤ) : ℤ := (instant / 24 + 3) % 7

/-- One produced feature row (`df_out` record of the builders).  The
pollutant columns other than pm2_5 and the constant metadata columns
play no role in any claim and are omitted; `roll_var_24h` carries the
square of the `pm2_5_roll_std_24h` column (see `rollVarOfStd`).  For
H = 1 the single-element `targets` list is the `target_pm2_5_next_1h`
column. -/
structure FeatureRow where
  instant : ℤ
  pm2_5 : Option ℚ
  hour : ℤ
  day_of_week : ℤ
  is_weekend : ℤ
  lag_1h : Option ℚ
  lag_3h : Option ℚ
  lag_24h : Option ℚ
  roll_mean_3h : Option ℚ
  roll_mean_24h : Option ℚ
  roll_var_24h : Option ℚ
  diff_1h : Option ℚ
  targets : List (Option ℚ)
  deriving DecidableEq

/-- Steps 5-9 of `02_build_features_pm25_next72h.py` (lines 92-116) and
steps 4-8 of `02_build_features_pm25_next1h.py` (lines 44-64): calendar
features, lag features `shift(1/3/24)`, rolling mean/std over windows 3
and 24 with full-window `min_periods`, first difference, and the
`H`-step target columns `shift(-1) … shift(-H)`: the fields of the
row at position `i` (reading `r`) of a frame whose pm2_5 column is
`pms`. -/
def mkRowAt (H : ℕ) (pms : List (Option ℚ)) (i : ℕ) (r : Reading) : FeatureRow :=
  { instant := r.instant
    pm2_5 := r.pm2_5
    hour := r.instant % 24
    day_of_week := dayOfWeekOf r.instant
    is_weekend := if dayOfWeekOf r.instant = 5 ∨ dayOfWeekOf r.instant = 6 then 1 else 0
    lag_1h := shiftVal pms i 1
    lag_3h := shiftVal pms i 3
    lag_24h := shiftVal pms i 24
    roll_mean_3h := rollMean pms i 3
    roll_mean_24h := rollMean pms i 24
    roll_var_24h := rollVarOfStd pms i 24
    diff_1h := r.pm2_5.bind (fun a => (shiftVal pms i 1).map (fun b => a - b))
    targets := (List.range H).map (fun j => leadVal pms i (j + 1)) }

/-- One feature row per input reading, in order (the builders' steps
applied to the whole frame). -/
def mkRows (H : ℕ) (series : List Reading) : List FeatureRow :=
  series.enum.map (fun p => mkRowAt H (series.map (fun r => r.pm2_5)) p.1 p.2)

/-- The distinct failures of the feature builders: the history guard
(`Not enough raw data …`), the empty-after-parsing guard of the 72h
script (`After parsing timestamps, no valid rows remained.`), and the
exception `pd.to_datetime(format="mixed")` raises in the 1h script on
an unparsable timestamp. -/
inductive BuildError where
  | insufficientHistory (found needed : ℕ)
  | noValidRows
  | invalidTimestamp
  deriving DecidableEq

/-- `min_needed = 24 + HORIZON_HOURS + 5` of
`02_build_features_pm25_next72h.py` (line 56). -/
def min_needed72 : ℕ := 24 + HORIZON_HOURS + 5

/-- `main` of `02_build_features_pm25_next72h.py`, reduced to its data
path: guard on the raw document count (before parsing), parse and drop
unparsable timestamps, sort by instant, guard against an empty result,
then build one feature row per reading.  There is no step discarding
readings later than the current UTC hour. -/
def build72 (raws : List RawRecord) : Except BuildError (List FeatureRow) :=
  if raws.length < min_needed72 then
    .error (.insufficientHistory raws.length min_needed72)
  else if (sortByInstant (readingsOf raws)).isEmpty then .error .noValidRows
  else .ok (mkRows HORIZON_HOURS (sortByInstant (readingsOf raws)))

/-- `main` of `02_build_features_pm25_next1h.py`, reduced to its data
path: guard `len(raw_list) < 30`, parse timestamps with
`format="mixed"` (which raises on an unparsable value instead of
coercing), then build rows with H = 1 (input already sorted by the
store query). -/
def build1h (raws : List RawRecord) : Except BuildError (List FeatureRow) :=
  if raws.length < 30 then
    .error (.insufficientHistory raws.length 30)
  else if raws.any (fun r => r.parsedInstant.isNone) then
    .error .invalidTimestamp
  else .ok (mkRows 1 (readingsOf raws))

/-- The `skip future hours` loop filter of `01_ingest_raw_karachi_72h.py`
(lines 44-52) and `01_ingest_raw_karachi.py` (lines 58-64): keep only
reading instants not later than the current UTC hour. -/
def ingestKeep (nowHour : ℤ) (ts : List ℤ) : List ℤ :=
  ts.filter (fun t => t ≤ nowHour)

/-- A stored feature document as the serving scripts read it back:
its instant (hours since epoch) and the values of the required
`FEATURE_COLS` in their fixed order (`none` models a NaN cell). -/
structure StoredRow where
  instant : ℤ
  feats : List (Option ℚ)
  deriving DecidableEq

/-- `df[FEATURE_COLS].isna().any().any()` negated: every required
feature of the row is non-NaN. -/
def rowComplete (r : StoredRow) : Bool := r.feats.all (fun v => v.isSome)

/-- `find_one({"timestamp": {"$lte": now}}, sort=[("timestamp", -1)])`:
the stored row with the greatest instant not later than `now`, with no
condition on the feature values. -/
def latestLE (rows : List StoredRow) (now : ℤ) : Option StoredRow :=
  (rows.filter (fun r => r.instant ≤ now)).foldl
    (fun acc r =>
      match acc with
      | none => some r
      | some b => if b.instant < r.instant then some r else some b)
    none

/-- The distinct serving failures of
`05_predict_pm25_for_time_next72h.py`: `noBaseRow` (lines 108-112,
message carries `now`), `horizonOutOfRange` (lines 121-125, message
carries the computed delta, `base_time` and `user_time`), and
`incompleteBaseRow` (lines 139-140, `Base feature row has NaNs in
required features`). -/
inductive ServeError where
  | noBaseRow (now : ℤ)
  | horizonOutOfRange (base query : ℤ) (delta : ℚ)
  | incompleteBaseRow
  deriving DecidableEq

/-- `main` of `05_predict_pm25_for_time_next72h.py` (lines 103-156),
reduced to its data path: select the latest stored row with
`instant <= now` (by timestamp alone), fail `noBaseRow` if none; compute
the horizon and fail `horizonOutOfRange` outside `1..72`; then check the
required features of the selected row for NaNs and fail
`incompleteBaseRow` — in that order, with no fallback to an earlier
complete row.  `now` is in hours since epoch, `query` in microseconds.
On success returns the base row and the horizon index. -/
def serve72 (rows : List StoredRow) (now query : ℤ) : Except ServeError (StoredRow × ℤ) :=
  match latestLE rows now with
  | none => .error (.noBaseRow now)
  | some base =>
    let baseUs := base.instant * usPerHour
    let h := epsFloorHours query baseUs
    if h < 1 ∨ h > (HORIZON_HOURS : ℤ) then
      .error (.horizonOutOfRange base.instant query (deltaHours query baseUs))
    else if rowComplete base then .ok (base, h)
    else .error .incompleteBaseRow

/-- Descending insertion (helper for `sortDescByInstant`). -/
def insertSortedDesc (r : StoredRow) : List StoredRow → List StoredRow
  | [] => [r]
  | x :: xs => if r.instant > x.instant then r :: x :: xs else x :: insertSortedDesc r xs

/-- Sort stored rows by instant, most recent first. -/
def sortDescByInstant (rs : List StoredRow) : List StoredRow :=
  rs.foldr insertSortedDesc []

/-- The base-row selection of `04_predict_and_store_pm25_next1h.py`
(lines 44-60): load the 200 most recent documents, drop every row with
a NaN in the required features, and keep the most recent remaining
one. -/
def pickBase1h (rows : List StoredRow) : Option StoredRow :=
  (((sortDescByInstant rows).take 200).filter rowComplete).head?

/-- Python `round(x, 4)` (banker's rounding at 4 decimal places), used
for `predicted_pm2_5` in `06_generate_and_store_next72h_forecast.py`
(line 120). -/
def round4 (q : ℚ) : ℚ := ((bankersRound (q * 10000) : ℤ) : ℚ) / 10000

/-- One forecast document of `06_generate_and_store_next72h_forecast.py`
(lines 115-124).  `base_time`, `target_time` and `created_at` are in
hours since epoch (the script stores them as the corresponding
hour-aligned ISO strings, a strictly monotone encoding). -/
structure ForecastDoc where
  city : String
  base_time : ℤ
  horizon_hours : ℕ
  target_time : ℤ
  predicted_pm2_5 : ℚ
  predicted_aqi_us : Option ℤ
  category : String
  created_at : ℤ
  deriving DecidableEq

/-- The upsert key `(city, base_time, horizon_hours)` (line 129). -/
def docKey (d : ForecastDoc) : String × ℤ × ℕ := (d.city, d.base_time, d.horizon_hours)

/-- The forecast collection, modelled as the external document store
the spec assumes: one slot per upsert key. -/
def ForecastStore : Type := String × ℤ × ℕ → Option ForecastDoc

/-- `UpdateOne({key}, {"$set": doc}, upsert=True)`: replace-or-insert at
the document's key. -/
def upsertDoc (s : ForecastStore) (d : ForecastDoc) : ForecastStore :=
  fun k => if k = docKey d then some d else s k

/-- `bulk_write(ops)` over the per-horizon upserts. -/
def bulkUpsert (s : ForecastStore) (docs : List ForecastDoc) : ForecastStore :=
  docs.foldl upsertDoc s

/-- The store with no forecast documents. -/
def emptyStore : ForecastStore := fun _ => none

/-- The `for h in range(1, HORIZON_HOURS + 1)` loop of
`06_generate_and_store_next72h_forecast.py` (lines 110-133): for each
horizon `h`, `target_time = base_time + timedelta(hours=h)`,
`pred = float(yhat[h-1])`, AQI conversion of the prediction, and the
assembled document whose `created_at` is the run's `now_iso`. -/
def mkForecastDocs (base : ℤ) (yhat : List ℚ) (now : ℤ) : List ForecastDoc :=
  (List.range HORIZON_HOURS).map (fun j =>
    let h := j + 1
    let pred := (yhat.get? j).getD 0
    let ac := pm25_to_aqi_us pred
    { city := "Karachi"
      base_time := base
      horizon_hours := h
      target_time := base + (h : ℤ)
      predicted_pm2_5 := round4 pred
      predicted_aqi_us := ac.1
      category := ac.2
      created_at := now })

/-- One run of the materializer against a store state: build the 72
documents and bulk-upsert them. -/
def materialize (s : ForecastStore) (base : ℤ) (yhat : List ℚ) (now : ℤ) : ForecastStore :=
  bulkUpsert s (mkForecastDocs base yhat now)

/- ### Timestamp normalizer (`_parse_mixed_utc_timestamps`)

Python strings are embedded as `List Char`. -/

/-- The whitespace stripped by Python `str.strip` (the common subset;
the timestamps at hand contain at most ordinary spaces). -/
def isSpaceChar (c : Char) : Bool :=
  c = ' ' ∨ c = '\t' ∨ c = '\n' ∨ c = '\r'

/-- `ts.str.strip()`. -/
def pstrip (s : List Char) : List Char :=
  ((s.dropWhile isSpaceChar).reverse.dropWhile isSpaceChar).reverse

/-- `ts.str.replace(r"Z$", "+00:00", regex=True)`: rewrite a trailing
`Z` to an explicit zero offset. -/
def replaceTrailingZ (s : List Char) : List Char :=
  if s.getLast? = some 'Z' then s.dropLast ++ ('+' :: '0' :: '0' :: ':' :: '0' :: '0' :: []) else s

/-- `ts.where(ts.str.len() != 16, ts + ":00+00:00")`: a 16-character
value (`YYYY-MM-DDTHH:MM`) gains seconds and a zero offset. -/
def fixLen16 (s : List Char) : List Char :=
  if s.length = 16 then s ++ (':' :: '0' :: '0' :: '+' :: '0' :: '0' :: ':' :: '0' :: '0' :: []) else s

/-- `ts.where(ts.str.len() != 19, ts + "+00:00")`: a 19-character value
(`YYYY-MM-DDTHH:MM:SS`) gains a zero offset. -/
def fixLen19 (s : List Char) : List Char :=
  if s.length = 19 then s ++ ('+' :: '0' :: '0' :: ':' :: '0' :: '0' :: []) else s

/-- Days since 1970-01-01 of a civil date (the standard
days-from-civil computation; every intermediate division is on
non-negative operands for the years at hand). -/
def daysFromCivil (y mo d : ℤ) : ℤ :=
  let y2 := if mo ≤ 2 then y - 1 else y
  let era := (if 0 ≤ y2 then y2 else y2 - 399) / 400
  let yoe := y2 - era * 400
  let mp := if 2 < mo then mo - 3 else mo + 9
  let doy := (153 * mp + 2) / 5 + d - 1
  let doe := yoe * 365 + yoe / 4 - yoe / 100 + doy
  era * 146097 + doe

/-- Numeric value of a digit character. -/
def digitVal (c : Char) : ℤ := (c.toNat : ℤ) - 48

/-- `pd.to_datetime(utc=True, errors="coerce")` restricted to the one
format every well-formed input has after the three rewrites above:
`YYYY-MM-DDTHH:MM:SS±HH:MM`.  Returns the UTC instant in seconds since
the epoch, or `none` for anything else (pandas accepts further formats
this model rejects; the claims only exercise strings of this shape and
strings pandas also rejects). -/
def parseIsoOffset (s : List Char) : Option ℤ :=
  match s with
  | [y1, y2, y3, y4, c1, a1, a2, c2, b1, b2, c3, h1, h2, c4, i1, i2, c5, e1, e2, sg, o1, o2, c6, p1, p2] =>
    if ([y1, y2, y3, y4, a1, a2, b1, b2, h1, h2, i1, i2, e1, e2, o1, o2, p1, p2].all Char.isDigit
        ∧ c1 = '-' ∧ c2 = '-' ∧ c3 = 'T' ∧ c4 = ':' ∧ c5 = ':' ∧ c6 = ':'
        ∧ (sg = '+' ∨ sg = '-')) then
      let y := digitVal y1 * 1000 + digitVal y2 * 100 + digitVal y3 * 10 + digitVal y4
      let mo := digitVal a1 * 10 + digitVal a2
      let d := digitVal b1 * 10 + digitVal b2
      let hh := digitVal h1 * 10 + digitVal h2
      let mi := digitVal i1 * 10 + digitVal i2
      let se := digitVal e1 * 10 + digitVal e2
      let oh := digitVal o1 * 10 + digitVal o2
      let om := digitVal p1 * 10 + digitVal p2
      if (1 ≤ mo ∧ mo ≤ 12 ∧ 1 ≤ d ∧ d ≤ 31 ∧ hh ≤ 23 ∧ mi ≤ 59 ∧ se ≤ 59
          ∧ oh ≤ 23 ∧ om ≤ 59) then
        let naive := daysFromCivil y mo d * 86400 + hh * 3600 + mi * 60 + se
        let off := oh * 3600 + om * 60
        some (if sg = '-' then naive + off else naive - off)
      else none
    else none
  | _ => none

/-- `_parse_mixed_utc_timestamps` of `02_build_features_pm25_next72h.py`
(lines 16-36) applied to one element: strip, rewrite a trailing `Z`,
complete the 16- and 19-character forms, and parse; a value that does
not parse becomes `none` (`NaT`) rather than an exception. -/
def normalizeTimestamp (s : List Char) : Option ℤ :=
  parseIsoOffset (fixLen19 (fixLen16 (replaceTrailingZ (pstrip s))))

/-- Digit character of a value's last decimal digit. -/
def digitChar (n : ℕ) : Char := Char.ofNat (48 + n % 10)

/-- Two-digit zero-padded rendering. -/
def twoDigits (n : ℕ) : List Char := [digitChar (n / 10), digitChar n]

/-- Four-digit rendering of a four-digit year. -/
def fourDigits (n : ℕ) : List Char :=
  [digitChar (n / 1000), digitChar (n / 100), digitChar (n / 10), digitChar n]

/-- The no-seconds ISO encoding `YYYY-MM-DDTHH:MM` of an hour-aligned
instant (the Open-Meteo and naive-as-UTC form). -/
def encNoSeconds (y mo d h : ℕ) : List Char :=
  fourDigits y ++ '-' :: twoDigits mo ++ '-' :: twoDigits d ++ 'T' :: twoDigits h ++ ':' :: twoDigits 0

/-- The with-seconds ISO encoding `YYYY-MM-DDTHH:MM:SS` (naive,
implicitly UTC). -/
def encWithSeconds (y mo d h : ℕ) : List Char :=
  encNoSeconds y mo d h ++ ':' :: twoDigits 0

/-- The trailing-`Z` encoding `YYYY-MM-DDTHH:MM:SSZ`. -/
def encZ (y mo d h : ℕ) : List Char := encWithSeconds y mo d h ++ ['Z']

/-- The explicit-UTC-offset encoding `YYYY-MM-DDTHH:MM:SS+00:00`. -/
def encOffsetUTC (y mo d h : ℕ) : List Char :=
  encWithSeconds y mo d h ++ ('+' :: '0' :: '0' :: ':' :: '0' :: '0' :: [])

/-- The canonical UTC instant (seconds since epoch) of the physical
hour `y-mo-d h:00:00Z`; whole-hour truncated by construction. -/
def mkHourInstant (y mo d h : ℕ) : ℤ :=
  daysFromCivil (y : ℤ) (mo : ℤ) (d : ℤ) * 86400 + (h : ℤ) * 3600

/- ### Spec-side reference definitions (from the spec's words, for
comparison with the code-side functions above) -/

/-- The pm2_5 value of the reading at instant `t`, if the series has
one: the time-based lookup the spec's `lag_k(t) = pm2_5(t − k hours)`
refers to. -/
def pmAtInstant (series : List Reading) (t : ℤ) : Option ℚ :=
  (series.find? (fun r => r.instant = t)).bind (fun r => r.pm2_5)

/-- Spec-side lag: `pm2_5(t − k)`, null when `t − k` precedes the series
start (spec §4.2 step 3). -/
def specLag (series : List Reading) (t : ℤ) (k : ℕ) : Option ℚ :=
  match series.head? with
  | none => none
  | some r0 => if t - (k : ℤ) < r0.instant then none else pmAtInstant series (t - (k : ℤ))

/-- Spec-side target: `pm2_5(t + h)`, null when `t + h` is beyond the
series end (spec §4.2 step 6). -/
def specTarget (series : List Reading) (t : ℤ) (h : ℕ) : Option ℚ :=
  match series.getLast? with
  | none => none
  | some rl => if rl.instant < t + (h : ℤ) then none else pmAtInstant series (t + (h : ℤ))

/-- Hourly contiguity of a reading series: each reading is exactly one
hour after its predecessor. -/
def hourlyChain : List Reading → Bool
  | [] => true
  | [_] => true
  | a :: b :: rest => (b.instant = a.instant + 1) && hourlyChain (b :: rest)

/-- Spec-side trailing window: the slice of the last `w` slots ending
at row `i`, written with `take`/`drop` rather than the code's indexed
reads. -/
def specWindow (pms : List (Option ℚ)) (i w : ℕ) : List (Option ℚ) :=
  (pms.take (i + 1)).drop (i + 1 - w)

/-- Spec-side band membership `c_lo ≤ c ≤ c_hi` of one breakpoint
row. -/
def bandMatches (c : ℚ) (b : ℚ × ℚ × ℤ × ℤ × String) : Bool :=
  decide (b.1 ≤ c ∧ c ≤ b.2.1)

/-- Spec-side band output: the spec's
`aqi = round(((i_hi − i_lo) / (c_hi − c_lo)) × (c − c_lo) + i_lo)` with
the band's label. -/
def bandOutput (c : ℚ) : ℚ × ℚ × ℤ × ℤ × String → ℤ × String
  | (cl, ch, il, ihi, lab) =>
    (bankersRound ((((ihi : ℚ) - (il : ℚ)) / (ch - cl)) * (c - cl) + (il : ℚ)), lab)

/-- A concentration strictly between the upper boundary of one
breakpoint band and the lower boundary of the next (the six 0.1-wide
gaps of the table). -/
def inBoundaryGap (c : ℚ) : Prop :=
  (12.0 < c ∧ c < 12.1) ∨ (35.4 < c ∧ c < 35.5) ∨ (55.4 < c ∧ c < 55.5)
  ∨ (150.4 < c ∧ c < 150.5) ∨ (250.4 < c ∧ c < 250.5) ∨ (350.4 < c ∧ c < 350.5)

/-- The spec-side base-row rule of §4.3: the most recent stored row
with `instant ≤ now` among those with complete features. -/
def latestCompleteLE (rows : List StoredRow) (now : ℤ) : Option StoredRow :=
  latestLE (rows.filter rowComplete) now

/-- 101 hourly raw records at instants `0..100`, pm2_5 constant 50:
a concrete input for the 72h builder at a moment when the current UTC
hour is instant 50 (so instants `51..100` lie in the future). -/
def c2DemoRaws : List RawRecord :=
  (List.range 101).map (fun i => RawRecord.mk (some (i : ℤ)) (some 50))

/-- A reading series with a gap: instants 0, 1, 3 (hour 2 missing). -/
def c4DemoSeries : List Reading :=
  [Reading.mk 0 (some 10), Reading.mk 1 (some 20), Reading.mk 3 (some 30)]

/-- A contiguous hourly series: 26 readings at instants 0..25. -/
def c4WitnessSeries : List Reading :=
  (List.range 26).map (fun i => Reading.mk (i : ℤ) (some (i : ℚ)))

/-- A constant prediction vector of the model's output length. -/
def c7DemoYhat : List ℚ := List.replicate 72 50

/-- A stored feature row at instant 0 with complete features. -/
def c8CompleteRow : StoredRow := StoredRow.mk 0 [some 1]

/-- A stored feature row at instant 1 with a NaN required feature. -/
def c8IncompleteRow : StoredRow := StoredRow.mk 1 [none]

/-- The forecast document the materializer produces for horizon `h`
(1-based): `target_time = base_time + h` hours and the prediction taken
from element `h − 1` of the vector. -/
def forecastDocAt (base : ℤ) (yhat : List ℚ) (now : ℤ) (h : ℕ) : ForecastDoc :=
  { city := "Karachi"
    base_time := base
    horizon_hours := h
    target_time := base + (h : ℤ)
    predicted_pm2_5 := round4 ((yhat.get? (h - 1)).getD 0)
    predicted_aqi_us := (pm25_to_aqi_us ((yhat.get? (h - 1)).getD 0)).1
    category := (pm25_to_aqi_us ((yhat.get? (h - 1)).getD 0)).2
    created_at := now }

/- ### Theorems -/

theorem clamp_of_neg {c : ℚ} (hc : c < 0) : pm25Clamped c = 0 := by
  unfold pm25Clamped
  rw [if_pos hc]
  norm_num

theorem clamp_of_gt {c : ℚ} (hc : 500.4 < c) : pm25Clamped c = 500.4 := by
  have h0 : ¬ (c < 0) := by linarith
  unfold pm25Clamped
  rw [if_neg h0]
  show (if c > 500.4 then 500.4 else c) = 500.4
  rw [if_pos hc]

theorem clamp_of_mem {c : ℚ} (h0 : 0 ≤ c) (h5 : c ≤ 500.4) : pm25Clamped c = c := by
  unfold pm25Clamped
  rw [if_neg (not_lt.mpr h0)]
  show (if c > 500.4 then 500.4 else c) = c
  rw [if_neg (not_lt.mpr h5)]

theorem findBand_eq_find (bps : List (ℚ × ℚ × ℤ × ℤ × String)) (c : ℚ) :
    findBand bps c = (bps.find? (bandMatches c)).map (bandOutput c) := by
  induction bps with
  | nil => rfl
  | cons b rest ih =>
    obtain ⟨cl, ch, il, ih2, lab⟩ := b
    by_cases h : cl ≤ c ∧ c ≤ ch
    · simp [findBand, bandMatches, bandOutput, List.find?, h]
    · simp [findBand, bandMatches, List.find?, h, ih]

theorem findBand_cons_neg {cl ch : ℚ} {il ihi : ℤ} {lab : String}
    {rest : List (ℚ × ℚ × ℤ × ℤ × String)} {c : ℚ} (h : ¬ (cl ≤ c ∧ c ≤ ch)) :
    findBand ((cl, ch, il, ihi, lab) :: rest) c = findBand rest c := by
  conv_lhs => rw [findBand]
  rw [if_neg h]

/-- C6: the PM2.5-to-AQI converter satisfies the boundary table
(`AQI(0)=0` Good, `AQI(12.0)=50` Good, `AQI(12.1)=51` Moderate,
`AQI(500.4)=500`), clamps every negative input to 0 and every input
above 500.4 to 500.4, and on the clamp range returns the rounded linear
interpolation of the first matching band. -/
theorem c6_aqi_converter :
    pm25_to_aqi_us 0 = (some 0, "Good")
    ∧ pm25_to_aqi_us 12.0 = (some 50, "Good")
    ∧ pm25_to_aqi_us 12.1 = (some 51, "Moderate")
    ∧ (pm25_to_aqi_us 500.4).1 = some 500
    ∧ (∀ c : ℚ, c < 0 → pm25_to_aqi_us c = pm25_to_aqi_us 0)
    ∧ (∀ c : ℚ, 500.4 < c → pm25_to_aqi_us c = pm25_to_aqi_us 500.4)
    ∧ (∀ c : ℚ, 0 ≤ c → c ≤ 500.4 →
        pm25_to_aqi_us c =
          match (pm25Breakpoints.find? (bandMatches c)).map (bandOutput c) with
          | some (a, lab) => (some a, lab)
          | none => (none, "Unknown")) := by
  refine ⟨by decide, by decide, by decide, by decide, ?_, ?_, ?_⟩
  · intro c hc
    unfold pm25_to_aqi_us
    rw [clamp_of_neg hc, clamp_of_mem (le_refl 0) (by norm_num)]
  · intro c hc
    unfold pm25_to_aqi_us
    rw [clamp_of_gt hc, clamp_of_mem (by norm_num) (le_refl (500.4 : ℚ))]
  · intro c h0 h5
    unfold pm25_to_aqi_us
    rw [clamp_of_mem h0 h5, findBand_eq_find]

theorem c6_witness :
    pm25_to_aqi_us (-10) = pm25_to_aqi_us 0 ∧ pm25_to_aqi_us 9999 = pm25_to_aqi_us 500.4 :=
  ⟨c6_aqi_converter.2.2.2.2.1 (-10) (by norm_num),
   c6_aqi_converter.2.2.2.2.2.1 9999 (by norm_num)⟩

/-- C10: every concentration strictly between two consecutive band
boundaries — all six 0.1-wide gaps of the table, e.g. 12.05 — lies
inside the clamp range yet matches no breakpoint band, so the converter
returns no numeric AQI and category "Unknown". -/
theorem c10_gap_unknown :
    ∀ c : ℚ, inBoundaryGap c → pm25_to_aqi_us c = (none, "Unknown") := by
  intro c hg
  have hb : 0 ≤ c ∧ c ≤ 500.4 := by
    rcases hg with ⟨a, b⟩ | ⟨a, b⟩ | ⟨a, b⟩ | ⟨a, b⟩ | ⟨a, b⟩ | ⟨a, b⟩ <;>
      exact ⟨by linarith, by linarith⟩
  have hnone : findBand pm25Breakpoints c = none := by
    rcases hg with ⟨a, b⟩ | ⟨a, b⟩ | ⟨a, b⟩ | ⟨a, b⟩ | ⟨a, b⟩ | ⟨a, b⟩ <;>
    · unfold pm25Breakpoints
      rw [findBand_cons_neg (by rintro ⟨x, y⟩; linarith),
          findBand_cons_neg (by rintro ⟨x, y⟩; linarith),
          findBand_cons_neg (by rintro ⟨x, y⟩; linarith),
          findBand_cons_neg (by rintro ⟨x, y⟩; linarith),
          findBand_cons_neg (by rintro ⟨x, y⟩; linarith),
          findBand_cons_neg (by rintro ⟨x, y⟩; linarith),
          findBand_cons_neg (by rintro ⟨x, y⟩; linarith)]
      rfl
  unfold pm25_to_aqi_us
  rw [clamp_of_mem hb.1 hb.2, hnone]

theorem c10_witness :
    inBoundaryGap 12.05 ∧ pm25_to_aqi_us 12.05 = (none, "Unknown") :=
  ⟨by left; constructor <;> norm_num,
   c10_gap_unknown 12.05 (by left; constructor <;> norm_num)⟩
/-- C9: each feature builder raises its insufficient-history error, and
builds nothing, exactly when the input series has fewer observations
than its guard requires: `24 + 72 + 5 = 101` raw documents for the 72h
builder and 30 for the 1h builder; with at least that many it proceeds
past the guard. -/
theorem c9_history_guard :
    (∀ raws : List RawRecord,
        build72 raws = .error (.insufficientHistory raws.length min_needed72) ↔
          raws.length < min_needed72)
    ∧ (∀ raws : List RawRecord,
        build1h raws = .error (.insufficientHistory raws.length 30) ↔ raws.length < 30)
    ∧ min_needed72 = 24 + HORIZON_HOURS + 5 ∧ min_needed72 = 101 := by
  refine ⟨?_, ?_, rfl, rfl⟩
  · intro raws
    by_cases h : raws.length < min_needed72
    · simp [build72, h]
    · simp only [build72, if_neg h]
      constructor
      · intro hc
        split at hc <;> simp_all
      · intro hc
        exact absurd hc h
  · intro raws
    by_cases h : raws.length < 30
    · simp [build1h, h]
    · simp only [build1h, if_neg h]
      constructor
      · intro hc
        split at hc <;> simp_all
      · intro hc
        exact absurd hc h

/-- Shifting both query and base by the same amount leaves the aligner
unchanged (helper). -/
theorem alignHorizon_shift (b c : ℤ) : alignHorizon (b + c) b = alignHorizon c 0 := by
  unfold alignHorizon epsFloorHours deltaHours
  norm_num

/-- C1 counterexample: for a query exactly one microsecond before
`base + 1h`, `floor((query − base)/1h) = 0`, so the claimed rule
`succeeds iff 1 ≤ floor(delta) ≤ 72` would reject it — but the code's
`floor(delta + 1e-9)` accepts it with horizon 1. -/
theorem c1_counterexample :
    alignHorizon 3599999999 0 = some 1 ∧ (deltaHours 3599999999 0).floor = 0 := by
  constructor
  · decide
  · decide

/-- C1 amended: the aligner computes
`delta_hours = floor((query − base)/1h + 1e-9)` (the deliberate `1e-9`
guard rounds a query less than 3.6 µs below an hour boundary up to that
boundary); it succeeds exactly when `1 ≤ delta_hours ≤ 72`, returns
`horizon_index = delta_hours`, and uses element `delta_hours − 1` of the
prediction vector.  All four example inputs of the claim behave as
stated: `base+1h30m → 1`, `base+72h → 72`, `base+73h` rejected, `base`
rejected. -/
theorem c1_amended :
    (∀ query base h : ℤ,
        alignHorizon query base = some h ↔
          h = epsFloorHours query base ∧ 1 ≤ h ∧ h ≤ 72)
    ∧ (∀ (yhat : List ℚ) (query base h : ℤ), alignHorizon query base = some h →
        selectHorizonValue yhat query base = yhat.get? (h - 1).toNat)
    ∧ (∀ base : ℤ, alignHorizon (base + 5400000000) base = some 1)
    ∧ (∀ base : ℤ, alignHorizon (base + 72 * usPerHour) base = some 72)
    ∧ (∀ base : ℤ, alignHorizon (base + 73 * usPerHour) base = none)
    ∧ (∀ base : ℤ, alignHorizon base base = none) := by
  refine ⟨?_, ?_, ?_, ?_, ?_, ?_⟩
  · intro query base h
    unfold alignHorizon
    by_cases hc : epsFloorHours query base < 1 ∨ epsFloorHours query base > (HORIZON_HOURS : ℤ)
    · rw [if_pos hc]
      simp only [false_iff, reduceCtorEq]
      rintro ⟨rfl, h1, h2⟩
      rcases hc with hc | hc
      · omega
      · have : (HORIZON_HOURS : ℤ) = 72 := by decide
        omega
    · rw [if_neg hc]
      push_neg at hc
      have h72 : (HORIZON_HOURS : ℤ) = 72 := by decide
      constructor
      · rintro he
        injection he with he
        omega
      · rintro ⟨rfl, h1, h2⟩
        rfl
  · intro yhat query base h hal
    unfold selectHorizonValue
    rw [hal]
    rfl
  · intro base
    rw [alignHorizon_shift]
    decide
  · intro base
    rw [alignHorizon_shift]
    decide
  · intro base
    rw [alignHorizon_shift]
    decide
  · intro base
    have : base = base + 0 := by ring
    nth_rewrite 1 [this]
    rw [alignHorizon_shift]
    decide

/-- Witness for C1 amended at concrete inputs. -/
theorem c1_witness :
    selectHorizonValue [(10 : ℚ), 20] 5400000000 0 = some 10 := by
  have h := c1_amended.2.1 [(10 : ℚ), 20] 5400000000 0 1 (by decide)
  rw [h]
  decide
/-- C2 counterexample: the 72h feature builder run over a raw store
holding 101 hourly readings at instants 0..100 while the current UTC
hour is instant 50 produces all 101 feature rows — rows with instants
beyond the no-future ceiling 50 included — because the builder has no
discarding step. -/
theorem c2_counterexample :
    ((build72 c2DemoRaws).toOption.getD []).all (fun row => decide (row.instant ≤ 50)) = false
    ∧ ((build72 c2DemoRaws).toOption.getD []).length = 101 := by
  constructor
  · decide
  · decide

/-- The feature rows carry exactly the instants of the input series,
in order (helper). -/
theorem mkRows_map_instant (H : ℕ) (series : List Reading) :
    (mkRows H series).map FeatureRow.instant = series.map Reading.instant := by
  unfold mkRows
  rw [List.map_map]
  show series.enum.map (fun p => p.2.instant) = series.map Reading.instant
  rw [show (fun p : ℕ × Reading => p.2.instant) = (Reading.instant ∘ Prod.snd) from rfl,
     ← List.map_map, List.enum_map_snd]

/-- C2 amended: the no-future discarding happens at ingestion, not in
the feature builder: the ingest loop keeps only reading instants not
later than the current UTC hour, while the feature builder emits one
row for every reading with a parseable timestamp, regardless of any
ceiling.  The invariant that no FeatureRow lies in the future therefore
holds only because the raw store is written exclusively by the
filtering ingest jobs. -/
theorem c2_amended :
    (∀ (now : ℤ) (ts : List ℤ), ∀ t ∈ ingestKeep now ts, t ≤ now)
    ∧ (∀ (raws : List RawRecord) (rows : List FeatureRow), build72 raws = .ok rows →
        rows.map FeatureRow.instant = (sortByInstant (readingsOf raws)).map Reading.instant) := by
  constructor
  · intro now ts t ht
    have h := (List.mem_filter.mp ht).2
    exact of_decide_eq_true h
  · intro raws rows hb
    unfold build72 at hb
    split at hb
    · exact absurd hb (by simp)
    · split at hb
      · exact absurd hb (by simp)
      · rw [Except.ok.injEq] at hb
        rw [← hb, mkRows_map_instant]

/-- Witness for C2 amended at concrete inputs. -/
theorem c2_witness :
    ((3 : ℤ) ≤ 5)
    ∧ (mkRows HORIZON_HOURS (sortByInstant (readingsOf c2DemoRaws))).map FeatureRow.instant
        = (sortByInstant (readingsOf c2DemoRaws)).map Reading.instant :=
  ⟨c2_amended.1 5 [3, 7] 3 (by decide),
   c2_amended.2 c2DemoRaws (mkRows HORIZON_HOURS (sortByInstant (readingsOf c2DemoRaws))) rfl⟩
/-- C7 counterexample: two materializer runs with the same `base_time`
and the same prediction vector, executed at different now-hours (0 and
1), store documents that are not byte-identical — the document at
horizon 1 differs in its `created_at` field. -/
theorem c7_counterexample :
    materialize (materialize emptyStore 0 c7DemoYhat 0) 0 c7DemoYhat 1 ("Karachi", 0, 1)
      ≠ materialize emptyStore 0 c7DemoYhat 0 ("Karachi", 0, 1) := by
  decide

/-- A bulk upsert leaves keys it does not write untouched (helper). -/
theorem bulkUpsert_apply_notmem (s : ForecastStore) (docs : List ForecastDoc)
    (k : String × ℤ × ℕ) (h : ∀ d ∈ docs, docKey d ≠ k) :
    bulkUpsert s docs k = s k := by
  induction docs generalizing s with
  | nil => rfl
  | cons d ds ih =>
    have hd : docKey d ≠ k := h d (List.mem_cons_self d ds)
    have hds : ∀ e ∈ ds, docKey e ≠ k := fun e he => h e (List.mem_cons_of_mem d he)
    show bulkUpsert (upsertDoc s d) ds k = s k
    rw [ih (upsertDoc s d) hds]
    unfold upsertDoc
    rw [if_neg (fun hk => hd hk.symm)]

/-- A bulk upsert whose batch holds exactly one document for a key
stores that document at the key (helper). -/
theorem bulkUpsert_apply_unique (s : ForecastStore) (docs : List ForecastDoc)
    (k : String × ℤ × ℕ) (d : ForecastDoc) (hd : d ∈ docs) (hk : docKey d = k)
    (huniq : ∀ e ∈ docs, docKey e = k → e = d) :
    bulkUpsert s docs k = some d := by
  induction docs generalizing s with
  | nil => cases hd
  | cons e ds ih =>
    show bulkUpsert (upsertDoc s e) ds k = some d
    by_cases hmem : ∃ f ∈ ds, docKey f = k
    · obtain ⟨f, hf, hfk⟩ := hmem
      have : f = d := huniq f (List.mem_cons_of_mem e hf) hfk
      subst this
      exact ih hf (fun g hg hgk => huniq g (List.mem_cons_of_mem e hg) hgk) (s := upsertDoc s e)
    · push_neg at hmem
      have hde : d = e := by
        rcases List.mem_cons.mp hd with h1 | h1
        · exact h1
        · exact absurd hk (hmem d h1)
      subst hde
      rw [bulkUpsert_apply_notmem _ _ _ (fun g hg hgk => hmem g hg hgk)]
      unfold upsertDoc
      rw [if_pos hk.symm]

/-- The 72 materialized documents are `forecastDocAt` at horizons
`1..72` (helper). -/
theorem mkForecastDocs_eq_map (base : ℤ) (yhat : List ℚ) (now : ℤ) :
    mkForecastDocs base yhat now
      = (List.range HORIZON_HOURS).map (fun j => forecastDocAt base yhat now (j + 1)) := rfl

/-- The horizon-h document is in the materialized batch (helper). -/
theorem forecastDocAt_mem (base : ℤ) (yhat : List ℚ) (now : ℤ) (h : ℕ)
    (h1 : 1 ≤ h) (h2 : h ≤ 72) :
    forecastDocAt base yhat now h ∈ mkForecastDocs base yhat now := by
  rw [mkForecastDocs_eq_map]
  refine List.mem_map.mpr ⟨h - 1, List.mem_range.mpr (by unfold HORIZON_HOURS; omega), ?_⟩
  congr 1
  omega

/-- Every document of the batch is `forecastDocAt` at some horizon
`j+1 ≤ 72` (helper). -/
theorem mkdocs_key_elim (base : ℤ) (yhat : List ℚ) (now : ℤ) (e : ForecastDoc)
    (he : e ∈ mkForecastDocs base yhat now) :
    ∃ j : ℕ, j < 72 ∧ e = forecastDocAt base yhat now (j + 1) := by
  rw [mkForecastDocs_eq_map] at he
  obtain ⟨j, hj, rfl⟩ := List.mem_map.mp he
  exact ⟨j, by simpa [HORIZON_HOURS] using List.mem_range.mp hj, rfl⟩

/-- The upsert key of the horizon-h document (helper). -/
theorem docKey_forecastDocAt (base : ℤ) (yhat : List ℚ) (now : ℤ) (h : ℕ) :
    docKey (forecastDocAt base yhat now h) = ("Karachi", base, h) := rfl

/-- Within one batch, a key determines its document (helper). -/
theorem mkdocs_uniq (base : ℤ) (yhat : List ℚ) (now : ℤ) (h : ℕ)
    (e : ForecastDoc) (he : e ∈ mkForecastDocs base yhat now)
    (hk : docKey e = ("Karachi", base, h)) :
    e = forecastDocAt base yhat now h := by
  obtain ⟨j, hj, rfl⟩ := mkdocs_key_elim base yhat now e he
  rw [docKey_forecastDocAt] at hk
  have : j + 1 = h := by
    have := congrArg (fun p => p.2.2) hk
    simpa using this
  rw [this]

/-- C7 amended: materializing twice with the same `base_time` and the
same H-length vector yields exactly one stored document per
`(city, base_time, horizon)` for `h = 1..72`, each with
`target_time = base_time + h` hours and value from vector element
`h − 1`; the documents of the two runs agree on every field except
`created_at`, which records each run's now-hour — so the runs are
byte-identical exactly when they happen in the same UTC hour (as the
upsert itself is idempotent). -/
theorem c7_amended :
    ∀ (base : ℤ) (yhat : List ℚ) (t1 t2 : ℤ),
    (∀ h : ℕ, 1 ≤ h → h ≤ 72 →
      materialize (materialize emptyStore base yhat t1) base yhat t2 ("Karachi", base, h)
        = some (forecastDocAt base yhat t2 h))
    ∧ (∀ h : ℕ,
      forecastDocAt base yhat t1 h = { forecastDocAt base yhat t2 h with created_at := t1 })
    ∧ (t1 = t2 →
      materialize (materialize emptyStore base yhat t1) base yhat t2
        = materialize emptyStore base yhat t1) := by
  intro base yhat t1 t2
  refine ⟨?_, ?_, ?_⟩
  · intro h h1 h2
    exact bulkUpsert_apply_unique _ _ _ _
      (forecastDocAt_mem base yhat t2 h h1 h2) (docKey_forecastDocAt base yhat t2 h)
      (fun e he hek => mkdocs_uniq base yhat t2 h e he hek)
  · intro h
    rfl
  · intro ht
    subst ht
    funext k
    by_cases hmem : ∃ d ∈ mkForecastDocs base yhat t1, docKey d = k
    · obtain ⟨d, hd, hk⟩ := hmem
      obtain ⟨j, hj, rfl⟩ := mkdocs_key_elim base yhat t1 d hd
      rw [docKey_forecastDocAt] at hk
      subst hk
      have huniq := fun e he hek => mkdocs_uniq base yhat t1 (j + 1) e he hek
      rw [show materialize (materialize emptyStore base yhat t1) base yhat t1 = bulkUpsert (materialize emptyStore base yhat t1) (mkForecastDocs base yhat t1) from rfl]
      rw [bulkUpsert_apply_unique _ _ _ _ (forecastDocAt_mem base yhat t1 (j+1) (by omega) (by omega)) (docKey_forecastDocAt base yhat t1 (j+1)) huniq]
      rw [show materialize emptyStore base yhat t1 = bulkUpsert emptyStore (mkForecastDocs base yhat t1) from rfl]
      rw [bulkUpsert_apply_unique _ _ _ _ (forecastDocAt_mem base yhat t1 (j+1) (by omega) (by omega)) (docKey_forecastDocAt base yhat t1 (j+1)) huniq]
    · push_neg at hmem
      show bulkUpsert (materialize emptyStore base yhat t1) (mkForecastDocs base yhat t1) k = _
      rw [bulkUpsert_apply_notmem _ _ _ hmem]

/-- Witness for C7 amended at concrete inputs. -/
theorem c7_witness :
    materialize (materialize emptyStore 0 c7DemoYhat 5) 0 c7DemoYhat 5 ("Karachi", 0, 1)
      = some (forecastDocAt 0 c7DemoYhat 5 1) :=
  (c7_amended 0 c7DemoYhat 5 5).1 1 (by decide) (by decide)
/-- C8 counterexample: with a complete stored row at hour 0 and an
incomplete one at hour 1, now = hour 1 and a query 3 hours after the
complete row, the 72h serving path fails with `incompleteBaseRow` —
although the most recent complete row ≤ now exists and the query is a
valid 3-hour horizon from it.  The base row is therefore selected by
timestamp alone, not by "instant ≤ now AND has_complete_features". -/
theorem c8_counterexample :
    serve72 [c8CompleteRow, c8IncompleteRow] 1 (3 * usPerHour)
      = .error .incompleteBaseRow
    ∧ latestCompleteLE [c8CompleteRow, c8IncompleteRow] 1 = some c8CompleteRow
    ∧ epsFloorHours (3 * usPerHour) (c8CompleteRow.instant * usPerHour) = 3 := by
  refine ⟨by rfl, by decide, by decide⟩

/-- The head of a filtered list satisfies the filter (helper). -/
theorem filter_head?_prop {α : Type} (l : List α) (p : α → Bool) (r : α)
    (h : (l.filter p).head? = some r) : p r = true := by
  have hm : r ∈ l.filter p := by
    cases hf : l.filter p with
    | nil => rw [hf] at h; cases h
    | cons a t =>
      rw [hf] at h
      injection h with h
      subst h
      exact List.mem_cons_self a t
  exact (List.mem_filter.mp hm).2

/-- C8 amended: in the 72h serving path the base row is the most recent
stored row with `instant ≤ now_hour` regardless of completeness; the
three failures are reported distinctly and in this order: `noBaseRow`
(carrying now) exactly when no row ≤ now exists; `horizonOutOfRange`
(carrying base_time, query_instant and the computed delta) when the
selected base exists and `delta_hours < 1` or `> 72`; and
`incompleteBaseRow` when the selected base has NaN required features
and the horizon was in range — with no fallback to an earlier complete
row.  The 1h path (`04_…`) differs: its base row always has complete
features. -/
theorem c8_amended :
    (∀ (rows : List StoredRow) (now query : ℤ),
      (serve72 rows now query = .error (.noBaseRow now) ↔ latestLE rows now = none)
      ∧ (∀ base, latestLE rows now = some base →
          ((epsFloorHours query (base.instant * usPerHour) < 1
              ∨ 72 < epsFloorHours query (base.instant * usPerHour)) →
            serve72 rows now query = .error (.horizonOutOfRange base.instant query
              (deltaHours query (base.instant * usPerHour))))
          ∧ (1 ≤ epsFloorHours query (base.instant * usPerHour) →
             epsFloorHours query (base.instant * usPerHour) ≤ 72 →
             rowComplete base = false →
             serve72 rows now query = .error .incompleteBaseRow)
          ∧ (1 ≤ epsFloorHours query (base.instant * usPerHour) →
             epsFloorHours query (base.instant * usPerHour) ≤ 72 →
             rowComplete base = true →
             serve72 rows now query
               = .ok (base, epsFloorHours query (base.instant * usPerHour)))))
    ∧ (∀ (rows : List StoredRow) (r : StoredRow),
        pickBase1h rows = some r → rowComplete r = true) := by
  constructor
  · intro rows now query
    constructor
    · unfold serve72
      cases hl : latestLE rows now with
      | none => simp
      | some base =>
        simp only []
        constructor
        · intro hc
          split at hc
          · cases hc
          · split at hc <;> cases hc
        · intro hc
          cases hc
    · intro base hl
      have h72 : (HORIZON_HOURS : ℤ) = 72 := by decide
      refine ⟨?_, ?_, ?_⟩
      · intro hr
        unfold serve72
        rw [hl]
        simp only []
        rw [if_pos (by omega)]
      · intro h1 h2 hcomp
        unfold serve72
        rw [hl]
        simp only []
        rw [if_neg (by omega), hcomp]
        rfl
      · intro h1 h2 hcomp
        unfold serve72
        rw [hl]
        simp only []
        rw [if_neg (by omega), hcomp]
        rfl
  · intro rows r h
    exact filter_head?_prop _ _ _ h

/-- Witness for C8 amended at concrete inputs. -/
theorem c8_witness :
    serve72 [c8CompleteRow] 0 usPerHour = .ok (c8CompleteRow, 1) := by
  have h := (((c8_amended.1 [c8CompleteRow] 0 usPerHour).2 c8CompleteRow (by rfl)).2.2)
    (by decide) (by decide) (by decide)
  rw [h]
  have : epsFloorHours usPerHour (c8CompleteRow.instant * usPerHour) = 1 := by decide
  rw [this]
/-- Length of the trailing slice when the window fits (helper). -/
theorem specWindow_length (pms : List (Option ℚ)) (i w : ℕ)
    (hi : i < pms.length) (hw : w ≤ i + 1) :
    (specWindow pms i w).length = w := by
  unfold specWindow
  rw [List.length_drop, List.length_take]
  omega

/-- Elements of the trailing slice (helper). -/
theorem specWindow_get? (pms : List (Option ℚ)) (i w n : ℕ)
    (hw : w ≤ i + 1) (hn : n < w) :
    (specWindow pms i w).get? n = pms.get? (i + 1 - w + n) := by
  unfold specWindow
  rw [List.get?_eq_getElem?, List.getElem?_drop, List.getElem?_take,
      if_pos (by omega : i + 1 - w + n < i + 1), ← List.get?_eq_getElem?]

/-- The code's indexed window reads equal the spec's `take`/`drop`
slice (helper). -/
theorem windowVals_slots_eq (pms : List (Option ℚ)) (i w : ℕ)
    (hi : i < pms.length) (hw : w ≤ i + 1) :
    (List.range w).map (fun j => (pms.get? (i + 1 - w + j)).join) = specWindow pms i w := by
  apply List.ext_get?
  intro n
  by_cases hn : n < w
  · rw [List.get?_eq_getElem?, List.getElem?_map, List.getElem?_range hn]
    rw [Option.map_some', specWindow_get? pms i w n hw hn]
    have hidx : i + 1 - w + n < pms.length := by omega
    rw [List.get?_eq_get hidx]
    rfl
  · have h1 : ((List.range w).map (fun j => (pms.get? (i + 1 - w + j)).join)).get? n = none := by
      rw [List.get?_eq_none]
      simpa using by omega
    have h2 : (specWindow pms i w).get? n = none := by
      rw [List.get?_eq_none, specWindow_length pms i w hi hw]
      omega
    rw [h1, h2]

/-- `rolling(w, min_periods=w)` window characterization: defined with
exactly the `w` trailing values iff the window fits and every slot is
non-NaN (helper). -/
theorem windowVals_eq_spec (pms : List (Option ℚ)) (i w : ℕ) (hi : i < pms.length) :
    windowVals pms i w =
      if w ≤ i + 1 ∧ (specWindow pms i w).all Option.isSome
      then some (specWindow pms i w).reduceOption else none := by
  unfold windowVals
  by_cases hw : w ≤ i + 1
  · rw [if_pos hw, windowVals_slots_eq pms i w hi hw]
    by_cases hall : (specWindow pms i w).all Option.isSome
    · rw [if_pos hall, if_pos ⟨hw, hall⟩]
    · rw [if_neg hall, if_neg (fun hc => hall hc.2)]
  · rw [if_neg hw, if_neg (fun hc => hw hc.1)]

/-- Row `i` of the built frame is `mkRowAt` of reading `i`
(helper). -/
theorem mkRows_get? (H : ℕ) (series : List Reading) (i : ℕ) (r : Reading)
    (hr : series.get? i = some r) :
    (mkRows H series).get? i
      = some (mkRowAt H (series.map (fun x => x.pm2_5)) i r) := by
  unfold mkRows
  rw [List.get?_eq_getElem?, List.getElem?_map, List.getElem?_enum,
      ← List.get?_eq_getElem?, hr]
  rfl

/-- C5: for every row of the built feature series (any target horizon
H, so both the 1h and the 72h pipeline variant, which share these
rolling columns), the rolling mean over window w ∈ {3,24} is non-null
iff exactly w observations ending at and including the current row are
available — i.e. the window fits and all w trailing pm2_5 values are
non-null — in which case it equals the mean of those w values; the
24-hour rolling std is non-null under the same condition, its square
equal to the sample variance (ddof = 1) of those 24 values; with fewer
observations the field is null. -/
theorem c5_rolling_full_window :
    ∀ (H : ℕ) (series : List Reading) (i : ℕ), i < series.length →
      (((mkRows H series).get? i).map FeatureRow.roll_mean_3h
        = some (if 3 ≤ i + 1 ∧ (specWindow (series.map (fun x => x.pm2_5)) i 3).all Option.isSome
            then some ((specWindow (series.map (fun x => x.pm2_5)) i 3).reduceOption.sum / 3)
            else none))
      ∧ (((mkRows H series).get? i).map FeatureRow.roll_mean_24h
        = some (if 24 ≤ i + 1 ∧ (specWindow (series.map (fun x => x.pm2_5)) i 24).all Option.isSome
            then some ((specWindow (series.map (fun x => x.pm2_5)) i 24).reduceOption.sum / 24)
            else none))
      ∧ (((mkRows H series).get? i).map FeatureRow.roll_var_24h
        = some (if 24 ≤ i + 1 ∧ (specWindow (series.map (fun x => x.pm2_5)) i 24).all Option.isSome
            then some (sampleVar (specWindow (series.map (fun x => x.pm2_5)) i 24).reduceOption 24)
            else none)) := by
  intro H series i hi
  have hr : ∃ r, series.get? i = some r := by
    rw [List.get?_eq_get hi]
    exact ⟨_, rfl⟩
  obtain ⟨r, hr⟩ := hr
  have hlen : i < (series.map (fun x => x.pm2_5)).length := by
    rw [List.length_map]
    exact hi
  rw [mkRows_get? H series i r hr]
  refine ⟨?_, ?_, ?_⟩
  · rw [Option.map_some']
    show some (rollMean (series.map (fun x => x.pm2_5)) i 3) = _
    unfold rollMean
    rw [windowVals_eq_spec _ _ _ hlen]
    by_cases hc : 3 ≤ i + 1 ∧ (specWindow (series.map (fun x => x.pm2_5)) i 3).all Option.isSome
    · rw [if_pos hc, if_pos hc]
      rfl
    · rw [if_neg hc, if_neg hc]
      rfl
  · rw [Option.map_some']
    show some (rollMean (series.map (fun x => x.pm2_5)) i 24) = _
    unfold rollMean
    rw [windowVals_eq_spec _ _ _ hlen]
    by_cases hc : 24 ≤ i + 1 ∧ (specWindow (series.map (fun x => x.pm2_5)) i 24).all Option.isSome
    · rw [if_pos hc, if_pos hc]
      rfl
    · rw [if_neg hc, if_neg hc]
      rfl
  · rw [Option.map_some']
    show some (rollVarOfStd (series.map (fun x => x.pm2_5)) i 24) = _
    unfold rollVarOfStd
    rw [windowVals_eq_spec _ _ _ hlen]
    by_cases hc : 24 ≤ i + 1 ∧ (specWindow (series.map (fun x => x.pm2_5)) i 24).all Option.isSome
    · rw [if_pos hc, if_pos hc]
      rfl
    · rw [if_neg hc, if_neg hc]
      rfl

/-- Witness for C5 at a concrete three-row series. -/
theorem c5_witness :
    ((mkRows 1 c4DemoSeries).get? 2).map FeatureRow.roll_mean_3h = some (some 20) := by
  have h := (c5_rolling_full_window 1 c4DemoSeries 2 (by decide)).1
  rw [h]
  decide
/-- C4 counterexample: on a series with a gap (instants 0, 1, 3), the
built row at instant 3 has `lag_1h = pm2_5` of the previous ROW
(instant 1, value 20), while the claimed `pm2_5(t − 1h)` would be the
value at instant 2 — which does not exist, and 2 does not precede the
series start, so the claim's lag is null.  The code's shift is
positional, not time-based. -/
theorem c4_counterexample :
    ((mkRows 72 c4DemoSeries).get? 2).map FeatureRow.lag_1h = some (some 20)
    ∧ specLag c4DemoSeries 3 1 = none := by
  constructor
  · decide
  · decide

/-- An hourly chain steps by one hour and its tail is a chain
(helper). -/
theorem chain_tail {a b : Reading} {t : List Reading}
    (hc : hourlyChain (a :: b :: t) = true) :
    b.instant = a.instant + 1 ∧ hourlyChain (b :: t) = true := by
  have := hc
  unfold hourlyChain at this
  rcases Bool.and_eq_true _ _ |>.mp this with ⟨h1, h2⟩
  exact ⟨of_decide_eq_true h1, h2⟩

/-- The head of a series carries the start instant (helper). -/
theorem head_instant {a : Reading} {rest : List Reading} {start : ℤ}
    (hh : (a :: rest).head?.map Reading.instant = some start) : a.instant = start := by
  simp only [List.head?, Option.map_some'] at hh
  injection hh

/-- In an hourly-contiguous series, the reading at position `j` is at
instant `start + j` (helper). -/
theorem chain_get_instant :
    ∀ (series : List Reading) (start : ℤ), hourlyChain series = true →
      series.head?.map Reading.instant = some start →
      ∀ (j : ℕ) (r : Reading), series.get? j = some r → r.instant = start + j := by
  intro series
  induction series with
  | nil => intro start _ hh j r hr; cases hr
  | cons a rest ih =>
    intro start hc hh j r hr
    have ha : a.instant = start := head_instant hh
    cases j with
    | zero =>
      simp only [List.get?] at hr
      injection hr with hr
      subst hr
      simpa using ha
    | succ j =>
      simp only [List.get?] at hr
      cases rest with
      | nil => cases hr
      | cons b t =>
        have hcb := chain_tail hc
        have hhb : (b :: t).head?.map Reading.instant = some (start + 1) := by
          simp only [List.head?, Option.map_some']
          rw [hcb.1, ha]
        have := ih (start + 1) hcb.2 hhb j r hr
        rw [this]
        push_cast
        ring

/-- In an hourly-contiguous series, time-based lookup at `start + j`
is positional lookup at `j` (helper). -/
theorem pmAt_eq_get :
    ∀ (series : List Reading) (start : ℤ), hourlyChain series = true →
      series.head?.map Reading.instant = some start →
      ∀ j : ℕ, j < series.length →
        pmAtInstant series (start + j) = (series.get? j).bind (fun r => r.pm2_5) := by
  intro series
  induction series with
  | nil => intro start _ _ j hj; cases hj
  | cons a rest ih =>
    intro start hc hh j hj
    have ha : a.instant = start := head_instant hh
    cases j with
    | zero =>
      unfold pmAtInstant
      rw [List.find?_cons_of_pos _ (by simp only [decide_eq_true_eq, ha]; omega)]
      simp [List.get?]
    | succ j =>
      unfold pmAtInstant
      rw [List.find?_cons_of_neg _ (by simp only [decide_eq_true_eq, ha]; push_cast; omega)]
      cases rest with
      | nil => simp at hj
      | cons b t =>
        have hcb := chain_tail hc
        have hhb : (b :: t).head?.map Reading.instant = some (start + 1) := by
          simp only [List.head?, Option.map_some']
          rw [hcb.1, ha]
        have hjlt : j < (b :: t).length := by
          simp only [List.length_cons] at hj ⊢
          omega
        have hrec := ih (start + 1) hcb.2 hhb j hjlt
        unfold pmAtInstant at hrec
        have harg : start + ((j : ℤ) + 1) = start + 1 + (j : ℤ) := by ring
        push_cast
        rw [harg, hrec]
        rfl

/-- Time-based lookup outside the series range is none (helper). -/
theorem pmAt_out_of_range :
    ∀ (series : List Reading) (start : ℤ), hourlyChain series = true →
      series.head?.map Reading.instant = some start →
      ∀ t : ℤ, (t < start ∨ start + series.length ≤ t) → pmAtInstant series t = none := by
  intro series
  induction series with
  | nil => intro start _ _ t _; rfl
  | cons a rest ih =>
    intro start hc hh t ht
    have ha : a.instant = start := head_instant hh
    have hbound : t < start ∨ start + 1 + (rest.length : ℤ) ≤ t := by
      rcases ht with h | h
      · exact Or.inl h
      · right
        simp only [List.length_cons] at h
        push_cast at h
        omega
    unfold pmAtInstant
    rw [List.find?_cons_of_neg _ (by
      simp only [decide_eq_true_eq, ha]
      rcases hbound with h | h <;> omega)]
    cases rest with
    | nil => rfl
    | cons b t2 =>
      have hcb := chain_tail hc
      have hhb : (b :: t2).head?.map Reading.instant = some (start + 1) := by
        simp only [List.head?, Option.map_some']
        rw [hcb.1, ha]
      have hrec := ih (start + 1) hcb.2 hhb t (by
        rcases hbound with h | h
        · exact Or.inl (by omega)
        · exact Or.inr h)
      unfold pmAtInstant at hrec
      exact hrec

/-- Unfolding of the spec-side lag at a known head (helper). -/
theorem specLag_head (series : List Reading) (t : ℤ) (k : ℕ) (r0 : Reading)
    (h : series.head? = some r0) :
    specLag series t k = if t - k < r0.instant then none else pmAtInstant series (t - k) := by
  unfold specLag
  rw [h]

/-- Unfolding of the spec-side target at a known last reading
(helper). -/
theorem specTarget_last (series : List Reading) (t : ℤ) (h : ℕ) (rl : Reading)
    (hl : series.getLast? = some rl) :
    specTarget series t h = if rl.instant < t + h then none else pmAtInstant series (t + h) := by
  unfold specTarget
  rw [hl]

/-- On an hourly-contiguous series the positional shift equals the
spec's time-based lag (helper). -/
theorem shiftVal_eq_specLag (series : List Reading) (start : ℤ) (i k : ℕ)
    (hc : hourlyChain series = true)
    (hh : series.head?.map Reading.instant = some start)
    (hi : i < series.length) :
    shiftVal (series.map (fun x => x.pm2_5)) i k = specLag series (start + i) k := by
  obtain ⟨a, ha⟩ : ∃ a, series.head? = some a := by
    cases series with
    | nil => simp at hh
    | cons x xs => exact ⟨x, rfl⟩
  have hains : a.instant = start := by
    rw [ha] at hh
    simp only [Option.map_some'] at hh
    injection hh
  rw [specLag_head series (start + i) k a ha, hains]
  by_cases hk : k ≤ i
  · rw [if_neg (by push_cast; omega)]
    have hcast : start + (i : ℤ) - (k : ℤ) = start + ((i - k : ℕ) : ℤ) := by
      push_cast [Nat.cast_sub hk]
      ring
    rw [hcast, pmAt_eq_get series start hc hh (i - k) (by omega)]
    unfold shiftVal
    rw [if_pos hk, List.get?_map]
    cases series.get? (i - k) <;> rfl
  · unfold shiftVal
    rw [if_neg hk, if_pos (by push_cast; omega)]

/-- On an hourly-contiguous series the positional lead equals the
spec's time-based target (helper). -/
theorem leadVal_eq_specTarget (series : List Reading) (start : ℤ) (i h : ℕ)
    (hc : hourlyChain series = true)
    (hh : series.head?.map Reading.instant = some start)
    (hi : i < series.length) :
    leadVal (series.map (fun x => x.pm2_5)) i h = specTarget series (start + i) h := by
  obtain ⟨rl, hrl⟩ : ∃ rl, series.getLast? = some rl := by
    cases hlast : series.getLast? with
    | none =>
      rw [List.getLast?_eq_none_iff] at hlast
      subst hlast
      simp at hi
    | some x => exact ⟨x, rfl⟩
  have hrlinst : rl.instant = start + ((series.length - 1 : ℕ) : ℤ) := by
    refine chain_get_instant series start hc hh (series.length - 1) rl ?_
    rw [List.get?_eq_getElem?, ← List.getLast?_eq_getElem?]
    exact hrl
  rw [specTarget_last series (start + i) h rl hrl, hrlinst]
  by_cases hend : i + h < series.length
  · rw [if_neg (by push_cast [Nat.cast_sub (by omega : 1 ≤ series.length)]; omega)]
    have hcast : start + (i : ℤ) + (h : ℤ) = start + ((i + h : ℕ) : ℤ) := by
      push_cast
      ring
    rw [hcast, pmAt_eq_get series start hc hh (i + h) hend]
    unfold leadVal
    rw [List.get?_map]
    cases series.get? (i + h) <;> rfl
  · rw [if_pos (by push_cast [Nat.cast_sub (by omega : 1 ≤ series.length)]; omega)]
    unfold leadVal
    rw [List.get?_eq_none.mpr (by rw [List.length_map]; omega)]
    rfl

/-- C4 amended: provided the reading series is hourly-contiguous (each
reading exactly one hour after its predecessor), every built row at
instant `t = start + i` satisfies the claim: `lag_k(t) = pm2_5(t − k)`
for k ∈ {1,3,24}, null when `t − k` precedes the series start, and
`target_h(t) = pm2_5(t + h)` for `h = 1..H`, null when `t + h` is
beyond the series end.  On a gapped series the code's `shift` is
positional (previous/next rows), not time-based. -/
theorem c4_amended :
    ∀ (H : ℕ) (series : List Reading) (start : ℤ) (i : ℕ),
      hourlyChain series = true →
      series.head?.map Reading.instant = some start →
      i < series.length →
      (((mkRows H series).get? i).map FeatureRow.lag_1h = some (specLag series (start + i) 1))
      ∧ (((mkRows H series).get? i).map FeatureRow.lag_3h = some (specLag series (start + i) 3))
      ∧ (((mkRows H series).get? i).map FeatureRow.lag_24h = some (specLag series (start + i) 24))
      ∧ (∀ h : ℕ, 1 ≤ h → h ≤ H →
          ((mkRows H series).get? i).map (fun row => row.targets.get? (h - 1))
            = some (some (specTarget series (start + i) h))) := by
  intro H series start i hc hh hi
  obtain ⟨r, hr⟩ : ∃ r, series.get? i = some r := by
    rw [List.get?_eq_get hi]
    exact ⟨_, rfl⟩
  rw [mkRows_get? H series i r hr]
  refine ⟨?_, ?_, ?_, ?_⟩
  · rw [Option.map_some']
    show some (shiftVal (series.map (fun x => x.pm2_5)) i 1) = _
    rw [shiftVal_eq_specLag series start i 1 hc hh hi]
  · rw [Option.map_some']
    show some (shiftVal (series.map (fun x => x.pm2_5)) i 3) = _
    rw [shiftVal_eq_specLag series start i 3 hc hh hi]
  · rw [Option.map_some']
    show some (shiftVal (series.map (fun x => x.pm2_5)) i 24) = _
    rw [shiftVal_eq_specLag series start i 24 hc hh hi]
  · intro h h1 h2
    rw [Option.map_some']
    show some (((List.range H).map (fun j => leadVal (series.map (fun x => x.pm2_5)) i (j + 1))).get? (h - 1)) = _
    rw [List.get?_eq_getElem?, List.getElem?_map, List.getElem?_range (by omega : h - 1 < H)]
    rw [Option.map_some']
    have hh1 : h - 1 + 1 = h := by omega
    rw [hh1, leadVal_eq_specTarget series start i h hc hh hi]

/-- Witness for C4 amended on a concrete contiguous series. -/
theorem c4_witness :
    ((mkRows 2 c4WitnessSeries).get? 25).map FeatureRow.lag_24h
      = some (specLag c4WitnessSeries ((0 : ℤ) + (25 : ℕ)) 24)
    ∧ ((mkRows 2 c4WitnessSeries).get? 25).map (fun row => row.targets.get? 0)
      = some (some (specTarget c4WitnessSeries ((0 : ℤ) + (25 : ℕ)) 1)) := by
  have h := c4_amended 2 c4WitnessSeries 0 25 (by decide) (by decide) (by decide)
  exact ⟨h.2.2.1, h.2.2.2 1 (by decide) (by decide)⟩

/-- Facts about the ten digit characters (helper). -/
theorem digit_facts : ∀ k : Fin 10,
    (Char.ofNat (48 + (k : ℕ))).isDigit = true
    ∧ ((Char.ofNat (48 + (k : ℕ))).toNat : ℤ) - 48 = ((k : ℕ) : ℤ)
    ∧ (Char.ofNat (48 + (k : ℕ)) ≠ 'Z')
    ∧ isSpaceChar (Char.ofNat (48 + (k : ℕ))) = false := by decide

/-- Digit characters are digits (helper). -/
theorem digitChar_isDigit (n : ℕ) : (digitChar n).isDigit = true :=
  (digit_facts ⟨n % 10, Nat.mod_lt _ (by norm_num)⟩).1

/-- Decoding a rendered digit (helper). -/
theorem digitVal_digitChar (n : ℕ) : digitVal (digitChar n) = ((n % 10 : ℕ) : ℤ) :=
  (digit_facts ⟨n % 10, Nat.mod_lt _ (by norm_num)⟩).2.1

/-- A digit character is not `Z` (helper). -/
theorem digitChar_ne_Z (n : ℕ) : digitChar n ≠ 'Z' :=
  (digit_facts ⟨n % 10, Nat.mod_lt _ (by norm_num)⟩).2.2.1

/-- A digit character is not whitespace (helper). -/
theorem isSpaceChar_digitChar (n : ℕ) : isSpaceChar (digitChar n) = false :=
  (digit_facts ⟨n % 10, Nat.mod_lt _ (by norm_num)⟩).2.2.2

/-- `dropWhile` is the identity when nothing satisfies the predicate
(helper). -/
theorem dropWhile_eq_self_of {α : Type} (p : α → Bool) (l : List α)
    (h : ∀ c ∈ l, p c = false) : l.dropWhile p = l := by
  cases l with
  | nil => rfl
  | cons a t =>
    rw [List.dropWhile_cons, h a (List.mem_cons_self a t)]
    simp

/-- `strip` is the identity on space-free strings (helper). -/
theorem pstrip_eq_self (l : List Char) (h : ∀ c ∈ l, isSpaceChar c = false) :
    pstrip l = l := by
  unfold pstrip
  rw [dropWhile_eq_self_of _ _ h,
      dropWhile_eq_self_of _ _ (fun c hc => h c (List.mem_reverse.mp hc)),
      List.reverse_reverse]

/-- The no-seconds encoding contains no whitespace (helper). -/
theorem encNoSeconds_chars (y mo d h : ℕ) :
    ∀ c ∈ encNoSeconds y mo d h, isSpaceChar c = false := by
  intro c hc
  unfold encNoSeconds fourDigits twoDigits at hc
  simp only [List.cons_append, List.nil_append, List.mem_cons, List.not_mem_nil, or_false] at hc
  rcases hc with rfl | rfl | rfl | rfl | rfl | rfl | rfl | rfl | rfl | rfl | rfl | rfl | rfl | rfl | rfl | rfl <;>
    first
      | exact isSpaceChar_digitChar _
      | decide

/-- The with-seconds encoding contains no whitespace (helper). -/
theorem encWithSeconds_chars (y mo d h : ℕ) :
    ∀ c ∈ encWithSeconds y mo d h, isSpaceChar c = false := by
  intro c hc
  unfold encWithSeconds twoDigits at hc
  rcases List.mem_append.mp hc with h1 | h1
  · exact encNoSeconds_chars y mo d h c h1
  · simp only [List.mem_cons, List.not_mem_nil, or_false] at h1
    rcases h1 with rfl | rfl | rfl <;>
      first
        | exact isSpaceChar_digitChar _
        | decide

/-- The trailing-Z encoding contains no whitespace (helper). -/
theorem encZ_chars (y mo d h : ℕ) :
    ∀ c ∈ encZ y mo d h, isSpaceChar c = false := by
  intro c hc
  unfold encZ at hc
  rcases List.mem_append.mp hc with h1 | h1
  · exact encWithSeconds_chars y mo d h c h1
  · simp only [List.mem_cons, List.not_mem_nil, or_false] at h1
    subst h1
    decide

/-- The offset encoding contains no whitespace (helper). -/
theorem encOffsetUTC_chars (y mo d h : ℕ) :
    ∀ c ∈ encOffsetUTC y mo d h, isSpaceChar c = false := by
  intro c hc
  unfold encOffsetUTC at hc
  rcases List.mem_append.mp hc with h1 | h1
  · exact encWithSeconds_chars y mo d h c h1
  · simp only [List.mem_cons, List.not_mem_nil, or_false] at h1
    rcases h1 with rfl | rfl | rfl | rfl | rfl | rfl <;> decide

/-- The three string rewrites turn the no-seconds form into the
canonical offset form (helper). -/
theorem transform_encNoSeconds (y mo d h : ℕ) :
    fixLen19 (fixLen16 (replaceTrailingZ (pstrip (encNoSeconds y mo d h))))
      = encOffsetUTC y mo d h := by
  rw [pstrip_eq_self _ (encNoSeconds_chars y mo d h)]
  unfold replaceTrailingZ
  rw [if_neg (by
    show ¬ (encNoSeconds y mo d h).getLast? = some 'Z'
    have : (encNoSeconds y mo d h).getLast? = some (digitChar 0) := rfl
    rw [this]
    intro hx
    injection hx with hx
    exact digitChar_ne_Z 0 hx)]
  unfold fixLen16
  rw [if_pos (show (encNoSeconds y mo d h).length = 16 from rfl)]
  unfold fixLen19
  rw [if_neg (show ¬ (encNoSeconds y mo d h ++
    (':' :: '0' :: '0' :: '+' :: '0' :: '0' :: ':' :: '0' :: '0' :: [])).length = 19 by
      intro hx
      rw [show (encNoSeconds y mo d h ++
        (':' :: '0' :: '0' :: '+' :: '0' :: '0' :: ':' :: '0' :: '0' :: [])).length = 25 from rfl] at hx
      exact absurd hx (by decide))]
  show encNoSeconds y mo d h ++ (':' :: '0' :: '0' :: '+' :: '0' :: '0' :: ':' :: '0' :: '0' :: [])
      = (encNoSeconds y mo d h ++ (':' :: twoDigits 0)) ++ ('+' :: '0' :: '0' :: ':' :: '0' :: '0' :: [])
  rw [List.append_assoc]
  rfl

/-- The three string rewrites turn the with-seconds form into the
canonical offset form (helper). -/
theorem transform_encWithSeconds (y mo d h : ℕ) :
    fixLen19 (fixLen16 (replaceTrailingZ (pstrip (encWithSeconds y mo d h))))
      = encOffsetUTC y mo d h := by
  rw [pstrip_eq_self _ (encWithSeconds_chars y mo d h)]
  unfold replaceTrailingZ
  rw [if_neg (by
    rw [show (encWithSeconds y mo d h).getLast? = some (digitChar 0) from rfl]
    intro hx
    injection hx with hx
    exact digitChar_ne_Z 0 hx)]
  unfold fixLen16
  rw [if_neg (by
    intro hx
    rw [show (encWithSeconds y mo d h).length = 19 from rfl] at hx
    exact absurd hx (by decide))]
  unfold fixLen19
  rw [if_pos (show (encWithSeconds y mo d h).length = 19 from rfl)]
  rfl

/-- The three string rewrites turn the trailing-Z form into the
canonical offset form (helper). -/
theorem transform_encZ (y mo d h : ℕ) :
    fixLen19 (fixLen16 (replaceTrailingZ (pstrip (encZ y mo d h))))
      = encOffsetUTC y mo d h := by
  rw [pstrip_eq_self _ (encZ_chars y mo d h)]
  unfold replaceTrailingZ
  rw [if_pos (show (encZ y mo d h).getLast? = some 'Z' from rfl)]
  unfold encZ
  rw [List.dropLast_concat]
  unfold fixLen16
  rw [if_neg (by
    intro hx
    rw [show ((encWithSeconds y mo d h) ++
      ('+' :: '0' :: '0' :: ':' :: '0' :: '0' :: [])).length = 25 from rfl] at hx
    exact absurd hx (by decide))]
  unfold fixLen19
  rw [if_neg (by
    intro hx
    rw [show ((encWithSeconds y mo d h) ++
      ('+' :: '0' :: '0' :: ':' :: '0' :: '0' :: [])).length = 25 from rfl] at hx
    exact absurd hx (by decide))]
  rfl

/-- The three string rewrites leave the canonical offset form
unchanged (helper). -/
theorem transform_encOffsetUTC (y mo d h : ℕ) :
    fixLen19 (fixLen16 (replaceTrailingZ (pstrip (encOffsetUTC y mo d h))))
      = encOffsetUTC y mo d h := by
  rw [pstrip_eq_self _ (encOffsetUTC_chars y mo d h)]
  unfold replaceTrailingZ
  rw [if_neg (by
    rw [show (encOffsetUTC y mo d h).getLast? = some '0' from rfl]
    intro hx
    injection hx with hx
    exact absurd hx (by decide))]
  unfold fixLen16
  rw [if_neg (by
    intro hx
    rw [show (encOffsetUTC y mo d h).length = 25 from rfl] at hx
    exact absurd hx (by decide))]
  unfold fixLen19
  rw [if_neg (by
    intro hx
    rw [show (encOffsetUTC y mo d h).length = 25 from rfl] at hx
    exact absurd hx (by decide))]

/-- Parsing the canonical offset form of an hour yields that hour's
UTC instant (helper). -/
theorem parse_encOffsetUTC (y mo d h : ℕ)
    (hy2 : y ≤ 9999) (hmo1 : 1 ≤ mo) (hmo2 : mo ≤ 12)
    (hd1 : 1 ≤ d) (hd2 : d ≤ 31) (hh : h ≤ 23) :
    parseIsoOffset (encOffsetUTC y mo d h) = some (mkHourInstant y mo d h) := by
  show parseIsoOffset [digitChar (y/1000), digitChar (y/100), digitChar (y/10), digitChar y, '-',
    digitChar (mo/10), digitChar mo, '-', digitChar (d/10), digitChar d, 'T',
    digitChar (h/10), digitChar h, ':', digitChar 0, digitChar 0, ':', digitChar 0, digitChar 0,
    '+', '0', '0', ':', '0', '0'] = some (mkHourInstant y mo d h)
  simp only [parseIsoOffset, digitVal_digitChar,
    show digitVal '0' = (0 : ℤ) from rfl,
    Nat.zero_mod, Nat.cast_zero]
  rw [if_pos (by
    refine ⟨by simp [List.all_cons, digitChar_isDigit, show Char.isDigit '0' = true from rfl], ?_⟩
    exact ⟨trivial, trivial, trivial, trivial, trivial, trivial, Or.inl trivial⟩)]
  rw [if_pos (by omega)]
  rw [if_neg (show ¬ ('+' = '-') from by decide)]
  have hY : (((y / 1000) % 10 : ℕ) : ℤ) * 1000 + (((y / 100) % 10 : ℕ) : ℤ) * 100
      + (((y / 10) % 10 : ℕ) : ℤ) * 10 + ((y % 10 : ℕ) : ℤ) = (y : ℤ) := by omega
  have hMO : (((mo / 10) % 10 : ℕ) : ℤ) * 10 + ((mo % 10 : ℕ) : ℤ) = (mo : ℤ) := by omega
  have hD : (((d / 10) % 10 : ℕ) : ℤ) * 10 + ((d % 10 : ℕ) : ℤ) = (d : ℤ) := by omega
  have hH : (((h / 10) % 10 : ℕ) : ℤ) * 10 + ((h % 10 : ℕ) : ℤ) = (h : ℤ) := by omega
  rw [hY, hMO, hD, hH]
  unfold mkHourInstant
  generalize daysFromCivil (y : ℤ) (mo : ℤ) (d : ℤ) = D
  ring_nf

/-- C3: the timestamp normalizer maps every supported encoding of the
same physical hour — no-seconds ISO, with-seconds ISO, trailing `Z`,
explicit UTC offset, with the first two doubling as the naive-as-UTC
forms — to the one identical canonical UTC instant of that hour (whole
hours by construction), and an unparsable string is classified invalid
(`none`, i.e. `NaT`, later dropped by `dropna`) rather than raising:
the embedding of `errors="coerce"` is total by construction. -/
theorem c3_normalizer :
    (∀ y mo d h : ℕ, 1000 ≤ y → y ≤ 9999 → 1 ≤ mo → mo ≤ 12 → 1 ≤ d → d ≤ 31 → h ≤ 23 →
      normalizeTimestamp (encNoSeconds y mo d h) = some (mkHourInstant y mo d h)
      ∧ normalizeTimestamp (encWithSeconds y mo d h) = some (mkHourInstant y mo d h)
      ∧ normalizeTimestamp (encZ y mo d h) = some (mkHourInstant y mo d h)
      ∧ normalizeTimestamp (encOffsetUTC y mo d h) = some (mkHourInstant y mo d h))
    ∧ normalizeTimestamp ('g' :: 'a' :: 'r' :: 'b' :: 'a' :: 'g' :: 'e' :: []) = none := by
  constructor
  · intro y mo d h hy1 hy2 hmo1 hmo2 hd1 hd2 hh
    refine ⟨?_, ?_, ?_, ?_⟩
    · unfold normalizeTimestamp
      rw [transform_encNoSeconds]
      exact parse_encOffsetUTC y mo d h hy2 hmo1 hmo2 hd1 hd2 hh
    · unfold normalizeTimestamp
      rw [transform_encWithSeconds]
      exact parse_encOffsetUTC y mo d h hy2 hmo1 hmo2 hd1 hd2 hh
    · unfold normalizeTimestamp
      rw [transform_encZ]
      exact parse_encOffsetUTC y mo d h hy2 hmo1 hmo2 hd1 hd2 hh
    · unfold normalizeTimestamp
      rw [transform_encOffsetUTC]
      exact parse_encOffsetUTC y mo d h hy2 hmo1 hmo2 hd1 hd2 hh
  · decide

/-- Witness for C3 at a concrete hour. -/
theorem c3_witness :
    normalizeTimestamp (encZ 2026 1 25 15) = some (mkHourInstant 2026 1 25 15) :=
  (c3_normalizer.1 2026 1 25 15 (by decide) (by decide) (by decide) (by decide)
    (by decide) (by decide) (by decide)).2.2.1
